import Mathlib

set_option allowUnsafeReducibility true
attribute [semireducible] Rat.add Rat.sub Rat.mul Rat.inv Rat.ofScientific

/-!
Verification of the extend-dist workload tuner: a shallow embedding of the
three-stage tuning and routing algorithm (`src/distributed/tuner.py`), the
query similarity metric (`src/workload/workload.py`), and the cluster
construction, together with proofs about their behaviour.

Conventions of the embedding:
* queries are identified by natural-number ids, replicas by their position;
* Python floats become rationals;
* the external index advisor (`recommend_configuration` via Extend) and the
  cost oracle (`replica.conn.get_cost`) are parameters of a `Sys` structure:
  `recommend r ws` is the configuration the advisor returns for replica `r` and
  query list `ws`, and `cost r c q` is the oracle's estimate for query `q`
  on replica `r` while configuration `c` is the one applied (the Python code
  always applies a configuration before reading costs, so every cost read in
  the source corresponds to a `cost` application at the matching
  configuration);
* operations that raise in Python (`ZeroDivisionError`, `ValueError` from
  `np.argmax([])`, `IndexError`) are modelled with `Option`/`Except`.
-/

/-- `Query` from `src/workload/workload.py`: id, text and the extracted
indexable column names.  This is the query type the `Tuner` imports. -/
structure Query where
  nr : ℕ
  text : String
  columns : List String
deriving DecidableEq

/-- `Query.similarity` from `src/workload/workload.py`:
`1 - len(A & B) / len(A | B)` on the column sets.  Python raises
`ZeroDivisionError` when both column sets are empty; that case is `none`. -/
def similarity (a b : Query) : Option ℚ :=
  let tc := a.columns.toFinset
  let oc := b.columns.toFinset
  if (tc ∪ oc).card = 0 then none
  else some (1 - ((tc ∩ oc).card : ℚ) / ((tc ∪ oc).card : ℚ))

/-- The slot of `clusters` that `Tuner.cluster` appends a query with label `l`
to: Python's `clusters[assignment - 1]` on a list of length `k`, where index
`-1` wraps around to `k - 1` (labels are in `[0, k)`). -/
def pyBucketIdx (k l : ℕ) : ℕ :=
  if l = 0 then k - 1 else l - 1

/-- The append loop of `Tuner.cluster`: fold over `(query, assignment)` pairs,
appending each query to the bucket Python's `clusters[assignment - 1]`
selects. -/
def clustersBuild (k : ℕ) : List (ℕ × ℕ) → (ℕ → List ℕ) → (ℕ → List ℕ)
  | [], acc => acc
  | (q, l) :: rest, acc =>
      clustersBuild k rest
        (fun j => if j = pyBucketIdx k l then acc j ++ [q] else acc j)

/-- `Tuner.cluster` after the external clustering library has produced the
label list `labels` (one label per query): build `k` buckets by the append
loop and read them off in slot order. -/
def clusterLists (k : ℕ) (queries : List ℕ) (labels : List ℕ) : List (List ℕ) :=
  (List.range k).map (clustersBuild k (queries.zip labels) (fun _ => []))

/-- The tuner together with its two external collaborators.  Mirrors the state
a `Tuner` instance closes over: the replica count, the workload (query ids in
workload order), the index advisor (`recommend_configuration` through Extend)
and the cost oracle (`replica.conn.get_cost`, whose answer depends on the
configuration currently applied to the replica).  `noIdx q` is the oracle's
answer for query `q` on replica 0 after a reset with no simulated indexes,
which is what `get_baseline_costs` reads. -/
structure Sys (Cfg : Type) where
  n : ℕ
  hn : 0 < n
  queries : List ℕ
  recommend : ℕ → List ℕ → Cfg
  cost : ℕ → Cfg → ℕ → ℚ
  noIdx : ℕ → ℚ

variable {Cfg : Type}

/-- `np.argmin` over `f 0, ..., f (n-1)`: index of the first minimum. -/
def argminIdx (n : ℕ) (f : ℕ → ℚ) : ℕ :=
  (List.range n).foldl (fun b i => if f i < f b then i else b) 0

/-- `np.argmax` over `f 0, ..., f (n-1)`: index of the first maximum. -/
def argmaxIdx (n : ℕ) (f : ℕ → ℚ) : ℕ :=
  (List.range n).foldl (fun b i => if f i > f b then i else b) 0

/-- `np.argmax` over a list of values: index of the first maximum. -/
def argmaxList (l : List ℚ) : ℕ :=
  argmaxIdx l.length (fun i => l.getD i 0)

lemma argminIdx_lt (n : ℕ) (hn : 0 < n) (f : ℕ → ℚ) : argminIdx n f < n := by
  unfold argminIdx
  have key : ∀ (l : List ℕ) (b : ℕ), b < n → (∀ i ∈ l, i < n) →
      l.foldl (fun b i => if f i < f b then i else b) b < n := by
    intro l
    induction l with
    | nil => intro b hb _; exact hb
    | cons hd tl ih =>
        intro b hb hmem
        simp only [List.foldl_cons]
        split
        · exact ih hd (hmem hd (by simp)) (fun i hi => hmem i (by simp [hi]))
        · exact ih b hb (fun i hi => hmem i (by simp [hi]))
  exact key _ 0 hn (fun i hi => List.mem_range.mp hi)

/-- `compute_total_cost`: sum over replicas of the per-replica workload cost,
each replica read under the configuration applied to it. -/
def totalCost (S : Sys Cfg) (cfgs : ℕ → Cfg) (parts : ℕ → List ℕ) : ℚ :=
  ((List.range S.n).map (fun r => ((parts r).map (S.cost r (cfgs r))).sum)).sum

/-- `best_fit_partition`: each query goes to the replica where it is cheapest
under the currently applied configurations (`np.argmin`, first minimum on
ties); bucket `r` keeps workload order. -/
def bestFitParts (S : Sys Cfg) (cfgs : ℕ → Cfg) : ℕ → List ℕ :=
  fun r => S.queries.filter (fun q => argminIdx S.n (fun i => S.cost i (cfgs i) q) = r)

/-- A stage-1 state: which replica each workload position is assigned to.
Both the cluster seed and every best-fit partition have this shape (each
query sits in exactly one bucket, buckets keep workload order). -/
def Assign (S : Sys Cfg) : Type := Fin S.queries.length → Fin S.n

instance (S : Sys Cfg) : Fintype (Assign S) := Pi.fintype

instance (S : Sys Cfg) : DecidableEq (Assign S) :=
  fun a b => Fintype.decidablePiFintype a b

/-- The partition lists an assignment denotes: bucket `r` lists the assigned
queries in workload order, matching how the Python code builds both the
cluster buckets and the best-fit buckets. -/
def partOf (S : Sys Cfg) (a : Assign S) : ℕ → List ℕ :=
  fun r => ((List.finRange S.queries.length).filter (fun i => (a i : ℕ) = r)).map
    (fun i => S.queries.get i)

/-- The configurations stage 1 applies for a partition: one advisor call per
replica on that replica's bucket (`recommend_configuration`). -/
def cfgOf (S : Sys Cfg) (a : Assign S) : ℕ → Cfg :=
  fun r => S.recommend r (partOf S a r)

/-- Total system cost of a stage-1 state, read after its configurations have
been applied (how `cluster_and_tune` computes `best_cost`/`next_cost`). -/
def cost1 (S : Sys Cfg) (a : Assign S) : ℚ :=
  totalCost S (cfgOf S a) (partOf S a)

/-- One pass of `best_fit_partition()` inside `cluster_and_tune`: re-assign
every query to its cheapest replica under the configurations recommended for
(and applied after) the previous partition. -/
def bestFitAssign (S : Sys Cfg) (a : Assign S) : Assign S :=
  fun i => ⟨argminIdx S.n (fun r => S.cost r (cfgOf S a r) (S.queries.get i)),
    argminIdx_lt S.n S.hn _⟩

/-- The `while True` loop of `cluster_and_tune`.  The loop state collapses to
the last accepted assignment `a` (the accepted partition is always the one
whose configurations are applied next, and `best_cost = cost1 a`).  On a
non-improving iteration the Python code has already executed
`partitions = next_partitions`, so it returns the best configurations paired
with the *new* partition: `some (a, bestFitAssign S a)`. -/
def stage1Loop (S : Sys Cfg) : ℕ → Assign S → Option (Assign S × Assign S)
  | 0, _ => none
  | fuel + 1, a =>
      let nxt := bestFitAssign S a
      if cost1 S nxt < cost1 S a then stage1Loop S fuel nxt
      else some (a, nxt)

/-- `cluster_and_tune` from the seed assignment `a0` produced by the
clusterer: returns (assignment giving the returned configurations,
assignment giving the returned partitions). -/
def clusterAndTune (S : Sys Cfg) (fuel : ℕ) (a0 : Assign S) :
    Option (Assign S × Assign S) :=
  stage1Loop S fuel a0

/-- The ways a `balance_tuning_refine` run can fail to return normally:
the fuel bound of the embedding, the `ValueError` that `np.argmax` raises on
an empty candidate list, the `IndexError` from reading `baseline[i]` past the
end of the per-query baseline list, and the destination staying `None` when
no other replica exists. -/
inductive S2Err where
  | fuel
  | emptyCandidates
  | indexError
  | noDest
deriving DecidableEq

/-- The destination-candidate loop of `balance_tuning_refine`: for each
replica `i` other than the worst, the code tests
`query_costs[i] < baseline[i]` — indexing the *per-query* baseline list by
the replica number.  Reading past the end of `baseline` raises `IndexError`
in Python, modelled as `none`. -/
def destReplicas (n worst : ℕ) (qcosts : ℕ → ℚ) (baseline : List ℚ) :
    Option (List ℕ) :=
  (List.range n).foldl
    (fun acc i =>
      match acc with
      | none => none
      | some ds =>
          if i = worst then some ds
          else
            match baseline.get? i with
            | none => none
            | some b => if qcosts i < b then some (ds ++ [i]) else some ds)
    (some [])

/-- The destination-candidate rule as the spec states it (§4.4 step 4):
replicas other than the worst on which the worst query's cost is below that
same query's own baseline cost `wqBaseline`.  Written from the spec's words
to compare against `destReplicas`. -/
def destReplicasSpec (n worst : ℕ) (qcosts : ℕ → ℚ) (wqBaseline : ℚ) : List ℕ :=
  (List.range n).filter (fun i => i ≠ worst && decide (qcosts i < wqBaseline))

/-- The `min_cost` scan of `balance_tuning_refine`: first strict minimum of
`f` over the candidate list, `none` when the list is empty (in which case the
Python code would go on to subscript with `None`). -/
def pickMinIdx (l : List ℕ) (f : ℕ → ℚ) : Option ℕ :=
  (l.foldl
    (fun acc i =>
      match acc with
      | none => some (i, f i)
      | some (b, m) => if f i < m then some (i, f i) else some (b, m))
    none).map Prod.fst

/-- One iteration of the `while True` loop of `balance_tuning_refine`, up to
(but not including) the accept test: re-apply the current configurations,
recompute the best-fit partition, pick the worst replica and worst query,
pick the destination, and evaluate the move and duplicate alternatives.
Returns the chosen next state `(configs, partitions, cost)` or the error the
Python code would raise. -/
def stage2Step (S : Sys Cfg) (cfgs : ℕ → Cfg) (parts : ℕ → List ℕ) :
    Except S2Err ((ℕ → Cfg) × (ℕ → List ℕ) × ℚ) :=
  let bf := bestFitParts S cfgs
  let rcosts : ℕ → ℚ := fun i => ((parts i).map (S.cost i (cfgs i))).sum
  let worst := argmaxIdx S.n rcosts
  let candidates := (parts worst).filter (fun q => q ∈ bf worst)
  if candidates = [] then .error .emptyCandidates
  else
    let wcosts := candidates.map (S.cost worst (cfgs worst))
    let wq := candidates.getD (argmaxList wcosts) 0
    let qcosts : ℕ → ℚ := fun r => S.cost r (cfgs r) wq
    let baseline := S.queries.map S.noIdx
    match destReplicas S.n worst qcosts baseline with
    | none => .error .indexError
    | some ds =>
        let dest? :=
          if ds ≠ [] then pickMinIdx ds qcosts
          else pickMinIdx ((List.range S.n).filter (fun i => i ≠ worst)) qcosts
        match dest? with
        | none => .error .noDest
        | some dest =>
            let moveParts := fun r =>
              if r = worst then (parts worst).erase wq
              else if r = dest then parts dest ++ [wq]
              else parts r
            let moveCfgs := fun r => S.recommend r (moveParts r)
            let moveCost := totalCost S moveCfgs moveParts
            let dupParts := fun r =>
              if r = dest then parts dest ++ [wq] else parts r
            let dupCfgs := fun r => S.recommend r (dupParts r)
            let dupCost := totalCost S dupCfgs dupParts
            if moveCost < dupCost then .ok (moveCfgs, moveParts, moveCost)
            else .ok (dupCfgs, dupParts, dupCost)

/-- The `while True` loop of `balance_tuning_refine`: run one step; accept
the proposed state only when its total cost is strictly below the current
one, otherwise return the current configurations and partitions. -/
def stage2Loop (S : Sys Cfg) :
    ℕ → (ℕ → Cfg) → (ℕ → List ℕ) → ℚ →
    Except S2Err ((ℕ → Cfg) × (ℕ → List ℕ)) :=
  fun fuel cfgs parts curCost =>
    match fuel with
    | 0 => .error .fuel
    | fuel + 1 =>
        match stage2Step S cfgs parts with
        | .error e => .error e
        | .ok (nCfgs, nParts, nCost) =>
            if nCost < curCost then stage2Loop S fuel nCfgs nParts nCost
            else .ok (cfgs, parts)

/-- `balance_tuning_refine`: apply the stage-1 configurations, seed the loop
state with the best-fit partition under them and its total cost, then run the
loop.  The `partitions` argument from stage 1 is accepted but the body never
reads it. -/
def balanceTuningRefine (S : Sys Cfg) (fuel : ℕ) (partitions : ℕ → List ℕ)
    (configs : ℕ → Cfg) : Except S2Err ((ℕ → Cfg) × (ℕ → List ℕ)) :=
  let curParts := bestFitParts S configs
  let curCost := totalCost S configs curParts
  stage2Loop S fuel configs curParts curCost

/-- Insertion step for `np.argsort`: place index `i` before the first listed
index with strictly larger cost. -/
def insertByCost (costs : List ℚ) (i : ℕ) : List ℕ → List ℕ
  | [] => [i]
  | j :: rest =>
      if costs.getD i 0 < costs.getD j 0 then i :: j :: rest
      else j :: insertByCost costs i rest

/-- `np.argsort(costs)`: the replica indices in ascending order of cost
(insertion sort; `np.argsort`'s order on equal costs is unspecified, so the
theorems below use it only at distinct costs or through its head). -/
def argsortQ (costs : List ℚ) : List ℕ :=
  (List.range costs.length).foldr (insertByCost costs) []

/-- The skew test `(loads[i_replica] / loads[order[0]]) < threshold` of
`_route_one`.  `loads` is a numpy array: when the denominator is zero the
quotient is `inf` or `nan` (the loads here are sums of nonnegative planner
costs), and either compares `False` against the threshold, so the test only
holds for a nonzero denominator. -/
def loadRatioLt (loads : List ℚ) (o0 i : ℕ) (t : ℚ) : Bool :=
  if loads.getD o0 0 = 0 then false
  else decide (loads.getD i 0 / loads.getD o0 0 < t)

/-- `Tuner._route_one`: start from the cheapest replica, then walk the
remaining replicas in ascending cost order, switching to each one whose cost
beats the query's baseline and whose load ratio against the cheapest replica
is below the threshold. -/
def routeOne (loads costs : List ℚ) (baseline threshold : ℚ) : ℕ :=
  let order := argsortQ costs
  let o0 := order.headD 0
  (order.drop 1).foldl
    (fun route i =>
      if costs.getD i 0 < baseline then
        if loadRatioLt loads o0 i threshold then i else route
      else route)
    o0

/-- Concrete system exercising stage 1 (one query, two replicas): the query
starts on replica 0 at cost 10, the first best-fit pass moves it to replica 1
at cost 5, and the second pass moves it back at cost 10, which stops the
loop.  Configurations are modelled as the advisor's input workload. -/
def Sys1 : Sys (List ℕ) where
  n := 2
  hn := by decide
  queries := [0]
  recommend := fun _ ws => ws
  cost := fun r c _ => if r = 0 then (if c = [0] then 10 else 3) else 5
  noIdx := fun _ => 0

/-- The cluster seed for `Sys1`: the single query on replica 0. -/
def asg0 : Assign Sys1 := fun _ => ⟨0, by decide⟩

/-- The state after the first accepted best-fit pass on `Sys1`: the query on
replica 1. -/
def asg1 : Assign Sys1 := fun _ => ⟨1, by decide⟩

/-- Concrete system where stage 2 returns normally on its first iteration:
two queries, two replicas, every cost estimate equal to 1. -/
def SysA : Sys (List ℕ) where
  n := 2
  hn := by decide
  queries := [0, 1]
  recommend := fun _ ws => ws
  cost := fun _ _ _ => 1
  noIdx := fun _ => 1

/-- Concrete system on which stage 2 reaches an empty candidate intersection:
two queries, two replicas.  The first iteration moves query 0 from replica 0
to replica 1 (total cost 10 to 4); under the new configurations both queries
best-fit replica 1, so the worst replica's remaining query list no longer
intersects its best-fit list. -/
def Sys6 : Sys (List ℕ) where
  n := 2
  hn := by decide
  queries := [0, 1]
  recommend := fun _ ws => ws
  cost := fun r c q =>
    if r = 0 then
      if c = [0, 1] then 5
      else if c = [1] then (if q = 1 then 3 else 50)
      else 0
    else
      if c = [] then 6
      else if c = [0] then (if q = 0 then 1 else 2)
      else 0
  noIdx := fun _ => 100

/-- The stage-1 configurations handed to stage 2 in the `Sys6` scenario. -/
def cfg6 : ℕ → List ℕ := fun r => if r = 0 then [0, 1] else []

/-! ## Properties of the cluster construction -/

lemma clustersBuild_eq (k : ℕ) (pairs : List (ℕ × ℕ)) :
    ∀ (acc : ℕ → List ℕ) (j : ℕ),
      clustersBuild k pairs acc j
        = acc j ++ (pairs.filter (fun p => pyBucketIdx k p.2 = j)).map Prod.fst := by
  induction pairs with
  | nil => intro acc j; simp [clustersBuild]
  | cons hd tl ih =>
      intro acc j
      obtain ⟨q, l⟩ := hd
      rw [clustersBuild, ih]
      by_cases h : pyBucketIdx k l = j
      · simp [h, List.filter_cons]
      · have h' : ¬ j = pyBucketIdx k l := fun hh => h hh.symm
        simp [h, h', List.filter_cons]

lemma clusterLists_getD (k : ℕ) (queries labels : List ℕ) (j : ℕ) (hj : j < k) :
    (clusterLists k queries labels).getD j []
      = ((queries.zip labels).filter (fun p => pyBucketIdx k p.2 = j)).map Prod.fst := by
  unfold clusterLists
  rw [List.getD_eq_getElem?_getD, List.getElem?_map]
  rw [List.getElem?_range hj]
  simp [clustersBuild_eq]

lemma pyBucketIdx_lt (k l : ℕ) (hk : 0 < k) (hl : l < k) : pyBucketIdx k l < k := by
  unfold pyBucketIdx
  split <;> omega

/-- C4 (counterexample): with two queries labelled 0 and 1 and two replica
slots, the query labelled 0 lands in output list 1, not list 0: the
`clusters[assignment - 1]` indexing rotates every label down by one, with
label 0 wrapping to the last slot. -/
theorem cluster_label_misaligned :
    clusterLists 2 [10, 20] [0, 1] = [[20], [10]]
    ∧ 10 ∉ (clusterLists 2 [10, 20] [0, 1]).getD 0 [] := by
  decide

/-- C4 (amended): the Clusterer returns exactly `k` pairwise-disjoint lists
whose members are exactly the input workload, but the queries assigned label
`l` end up in the output list at index `(l + k - 1) % k` — written here as
`pyBucketIdx k l` — not at index `l`. -/
theorem cluster_partitions_workload (k : ℕ) (queries labels : List ℕ)
    (hk : 0 < k) (hlen : labels.length = queries.length)
    (hlab : ∀ l ∈ labels, l < k) (hnd : queries.Nodup) :
    (clusterLists k queries labels).length = k
    ∧ (∀ q l, (q, l) ∈ queries.zip labels →
        q ∈ (clusterLists k queries labels).getD (pyBucketIdx k l) [])
    ∧ (∀ i j, i < k → j < k → i ≠ j →
        ∀ q, q ∈ (clusterLists k queries labels).getD i [] →
          q ∉ (clusterLists k queries labels).getD j [])
    ∧ (∀ q, q ∈ (clusterLists k queries labels).flatten ↔ q ∈ queries) := by
  have hfst : (queries.zip labels).map Prod.fst = queries :=
    List.map_fst_zip queries labels (le_of_eq hlen.symm)
  refine ⟨by simp [clusterLists], ?_, ?_, ?_⟩
  · intro q l hmem
    have hl : l < k := hlab l (List.of_mem_zip hmem).2
    rw [clusterLists_getD k queries labels _ (pyBucketIdx_lt k l hk hl)]
    exact List.mem_map_of_mem Prod.fst (List.mem_filter.mpr ⟨hmem, by simp⟩)
  · intro i j hi hj hij q hqi hqj
    rw [clusterLists_getD k queries labels i hi] at hqi
    rw [clusterLists_getD k queries labels j hj] at hqj
    obtain ⟨pi, hpi, hpieq⟩ := List.mem_map.mp hqi
    obtain ⟨pj, hpj, hpjeq⟩ := List.mem_map.mp hqj
    have hpi' := List.mem_filter.mp hpi
    have hpj' := List.mem_filter.mp hpj
    have hnd' : ((queries.zip labels).map Prod.fst).Nodup := by
      rw [hfst]; exact hnd
    have := List.inj_on_of_nodup_map hnd' hpi'.1 hpj'.1 (hpieq.trans hpjeq.symm)
    rw [this] at hpi'
    exact hij ((of_decide_eq_true hpi'.2).symm.trans (of_decide_eq_true hpj'.2))
  · intro q
    constructor
    · intro hq
      obtain ⟨L, hL, hqL⟩ := List.mem_flatten.mp hq
      obtain ⟨j, _, hLj⟩ := List.mem_map.mp hL
      rw [← hLj, clustersBuild_eq] at hqL
      simp only [List.nil_append] at hqL
      obtain ⟨p, hp, hpq⟩ := List.mem_map.mp hqL
      have := (List.of_mem_zip (List.mem_filter.mp hp).1).1
      rwa [hpq] at this
    · intro hq
      have : q ∈ (queries.zip labels).map Prod.fst := by rw [hfst]; exact hq
      obtain ⟨p, hp, hpq⟩ := List.mem_map.mp this
      have hl : p.2 < k := hlab p.2 (List.of_mem_zip hp).2
      refine List.mem_flatten.mpr ⟨(clusterLists k queries labels).getD (pyBucketIdx k p.2) [], ?_, ?_⟩
      · have hlt : pyBucketIdx k p.2 < k := pyBucketIdx_lt k p.2 hk hl
        rw [clusterLists_getD k queries labels _ hlt]
        unfold clusterLists
        refine List.mem_map.mpr ⟨pyBucketIdx k p.2, List.mem_range.mpr hlt, ?_⟩
        rw [clustersBuild_eq]
        simp
      · rw [clusterLists_getD k queries labels _ (pyBucketIdx_lt k p.2 hk hl)]
        exact List.mem_map.mpr ⟨p, List.mem_filter.mpr ⟨hp, by simp⟩, hpq⟩

/-- C4 (witness): the amended theorem applied to the two-query, two-slot
instance of the counterexample. -/
theorem cluster_partitions_workload_witness :
    (clusterLists 2 [10, 20] [0, 1]).length = 2
    ∧ (∀ q l, (q, l) ∈ [10, 20].zip [0, 1] →
        q ∈ (clusterLists 2 [10, 20] [0, 1]).getD (pyBucketIdx 2 l) [])
    ∧ (∀ i j, i < 2 → j < 2 → i ≠ j →
        ∀ q, q ∈ (clusterLists 2 [10, 20] [0, 1]).getD i [] →
          q ∉ (clusterLists 2 [10, 20] [0, 1]).getD j [])
    ∧ (∀ q, q ∈ (clusterLists 2 [10, 20] [0, 1]).flatten ↔ q ∈ [10, 20]) :=
  cluster_partitions_workload 2 [10, 20] [0, 1] (by decide) (by decide)
    (by decide) (by decide)

/-! ## Properties of the similarity metric -/

/-- C3 (counterexample): for a query with one indexable column, the workload
model's `similarity(a, a)` evaluates to 0, not 1 — the function returns
`1 - Jaccard`, a distance. -/
theorem similarity_self_ne_one :
    similarity ⟨1, "q", ["a"]⟩ ⟨1, "q", ["a"]⟩ = some 0
    ∧ some (0 : ℚ) ≠ some (1 : ℚ) := by
  constructor
  · norm_num [similarity]
  · simp

/-- C3 (amended): for queries that each reference at least one indexable
column, `similarity` returns a value in `[0, 1]` and is symmetric, but
`similarity(a, a)` is 0, not 1: the implementation returns one minus the
Jaccard index of the column sets, i.e. a distance. -/
theorem similarity_bounds_symm_self (a b : Query)
    (ha : a.columns ≠ []) (hb : b.columns ≠ []) :
    ∃ r : ℚ, similarity a b = some r ∧ 0 ≤ r ∧ r ≤ 1
      ∧ similarity b a = some r ∧ similarity a a = some 0 := by
  have hane : a.columns.toFinset.Nonempty := by
    cases hc : a.columns with
    | nil => exact absurd hc ha
    | cons x xs => exact ⟨x, by simp [hc]⟩
  have hu : (a.columns.toFinset ∪ b.columns.toFinset).card ≠ 0 := by
    simp only [ne_eq, Finset.card_eq_zero, Finset.union_eq_empty]
    intro ⟨h1, _⟩
    exact hane.ne_empty h1
  have hupos : (0 : ℚ) < ((a.columns.toFinset ∪ b.columns.toFinset).card : ℚ) := by
    exact_mod_cast Nat.pos_of_ne_zero hu
  refine ⟨1 - ((a.columns.toFinset ∩ b.columns.toFinset).card : ℚ)
      / ((a.columns.toFinset ∪ b.columns.toFinset).card : ℚ), ?_, ?_, ?_, ?_, ?_⟩
  · simp only [similarity]
    rw [if_neg hu]
  · have hle : (a.columns.toFinset ∩ b.columns.toFinset).card
        ≤ (a.columns.toFinset ∪ b.columns.toFinset).card :=
      Finset.card_le_card Finset.inter_subset_union
    have : ((a.columns.toFinset ∩ b.columns.toFinset).card : ℚ)
        / ((a.columns.toFinset ∪ b.columns.toFinset).card : ℚ) ≤ 1 :=
      (div_le_one hupos).mpr (by exact_mod_cast hle)
    linarith
  · have : (0 : ℚ) ≤ ((a.columns.toFinset ∩ b.columns.toFinset).card : ℚ)
        / ((a.columns.toFinset ∪ b.columns.toFinset).card : ℚ) :=
      div_nonneg (by positivity) (le_of_lt hupos)
    linarith
  · simp only [similarity]
    rw [Finset.union_comm b.columns.toFinset, Finset.inter_comm b.columns.toFinset]
    rw [if_neg hu]
  · have hua : a.columns.toFinset.card ≠ 0 := by
      simpa [Finset.card_eq_zero] using hane.ne_empty
    simp only [similarity, Finset.union_self, Finset.inter_self]
    rw [if_neg hua]
    congr 1
    rw [div_self (by exact_mod_cast hua)]
    ring

/-- C3 (witness): the amended contract at two concrete queries over columns
`x` and `x, y`. -/
theorem similarity_bounds_symm_self_witness :
    ∃ r : ℚ, similarity ⟨1, "q1", ["x"]⟩ ⟨2, "q2", ["x", "y"]⟩ = some r
      ∧ 0 ≤ r ∧ r ≤ 1
      ∧ similarity ⟨2, "q2", ["x", "y"]⟩ ⟨1, "q1", ["x"]⟩ = some r
      ∧ similarity ⟨1, "q1", ["x"]⟩ ⟨1, "q1", ["x"]⟩ = some 0 :=
  similarity_bounds_symm_self ⟨1, "q1", ["x"]⟩ ⟨2, "q2", ["x", "y"]⟩
    (by simp) (by simp)

/-- C7: when neither query references any indexable column, `similarity`
does not return a fallback value — the division `len(A & B) / len(A | B)`
has a zero denominator and the Python code raises `ZeroDivisionError`
(modelled as `none`). -/
theorem similarity_divides_by_zero :
    similarity ⟨1, "q1", []⟩ ⟨2, "q2", []⟩ = none := by
  norm_num [similarity]

/-! ## The stage-2 destination-candidate rule -/

/-- C5: the code indexes the per-query baseline list by the replica number.
With two replicas and baseline list `[100, 1]` (the no-index costs of queries
0 and 1), a worst query whose own baseline is 100 and whose cost on replica 1
is 50 yields no destination candidate in the code (`50 < baseline[1] = 1`
fails), while the spec's rule — compare against the worst query's own
baseline — makes replica 1 a candidate (`50 < 100`). -/
theorem destReplicas_misindexes_baseline :
    destReplicas 2 0 (fun i => if i = 1 then (50 : ℚ) else 5) [100, 1] = some []
    ∧ destReplicasSpec 2 0 (fun i => if i = 1 then (50 : ℚ) else 5) 100 = [1] := by
  decide

/-! ## Stage 1: partition-and-tune loop -/

lemma stage1Loop_some (S : Sys Cfg) :
    ∀ (fuel : ℕ) (a b l : Assign S), stage1Loop S fuel a = some (b, l) →
      cost1 S b ≤ cost1 S a ∧ l = bestFitAssign S b ∧ ¬ cost1 S l < cost1 S b := by
  intro fuel
  induction fuel with
  | zero => intro a b l h; simp [stage1Loop] at h
  | succ fuel ih =>
      intro a b l h
      simp only [stage1Loop] at h
      by_cases hlt : cost1 S (bestFitAssign S a) < cost1 S a
      · rw [if_pos hlt] at h
        obtain ⟨h1, h2, h3⟩ := ih _ b l h
        exact ⟨le_trans h1 (le_of_lt hlt), h2, h3⟩
      · rw [if_neg hlt] at h
        obtain ⟨rfl, rfl⟩ := Prod.mk.injEq .. ▸ Option.some_injective _ h
        exact ⟨le_refl _, rfl, hlt⟩

lemma stage1Loop_none_decreasing (S : Sys Cfg) :
    ∀ (fuel : ℕ) (a : Assign S), stage1Loop S fuel a = none →
      ∀ k, k < fuel →
        cost1 S ((bestFitAssign S)^[k + 1] a) < cost1 S ((bestFitAssign S)^[k] a) := by
  intro fuel
  induction fuel with
  | zero => intro a _ k hk; exact absurd hk (Nat.not_lt_zero k)
  | succ fuel ih =>
      intro a h k hk
      simp only [stage1Loop] at h
      by_cases hlt : cost1 S (bestFitAssign S a) < cost1 S a
      · rw [if_pos hlt] at h
        cases k with
        | zero => simpa using hlt
        | succ k =>
            have hrec := ih (bestFitAssign S a) h k (by omega)
            simp only [Function.iterate_succ_apply] at hrec ⊢
            exact hrec
      · rw [if_neg hlt] at h
        exact absurd h (by simp)

lemma stage1Loop_none_chain (S : Sys Cfg) (fuel : ℕ) (a : Assign S)
    (h : stage1Loop S fuel a = none) :
    ∀ i j, i < j → j ≤ fuel →
      cost1 S ((bestFitAssign S)^[j] a) < cost1 S ((bestFitAssign S)^[i] a) := by
  intro i j hij hj
  induction j, hij using Nat.le_induction with
  | base => exact stage1Loop_none_decreasing S fuel a h i (by omega)
  | succ j hj' ihj =>
      have h1 := stage1Loop_none_decreasing S fuel a h j (by omega)
      exact lt_trans h1 (ihj (by omega))

lemma stage1Loop_isSome (S : Sys Cfg) (a : Assign S) :
    (stage1Loop S (Fintype.card (Assign S)) a).isSome = true := by
  by_contra hns
  have h : stage1Loop S (Fintype.card (Assign S)) a = none :=
    Option.not_isSome_iff_eq_none.mp (by simpa using hns)
  have hinj : Function.Injective
      (fun k : Fin (Fintype.card (Assign S) + 1) => (bestFitAssign S)^[(k : ℕ)] a) := by
    intro k1 k2 heq
    have heq' : (bestFitAssign S)^[(k1 : ℕ)] a = (bestFitAssign S)^[(k2 : ℕ)] a := heq
    by_contra hne
    rcases lt_trichotomy (k1 : ℕ) (k2 : ℕ) with hlt | heqv | hgt
    · have hc := stage1Loop_none_chain S _ a h k1 k2 hlt (by omega)
      rw [heq'] at hc
      exact absurd hc (lt_irrefl _)
    · exact hne (Fin.ext heqv)
    · have hc := stage1Loop_none_chain S _ a h k2 k1 hgt (by omega)
      rw [heq'] at hc
      exact absurd hc (lt_irrefl _)
  have hcard := Fintype.card_le_of_injective _ hinj
  simp only [Fintype.card_fin] at hcard
  omega

/-- C8: stage 1's accepted best cost never increases — from any loop state
the returned best state costs no more than the state the loop entered with —
and the loop terminates within `|replicas| ^ |workload|` iterations because
each accepted re-partition strictly lowers the total cost over a finite state
space; the loop's only stopping guard is exactly "no improvement for one
round": the returned pair never satisfies the acceptance test. -/
theorem stage1_monotone_terminating (S : Sys Cfg) (a : Assign S) :
    (stage1Loop S (Fintype.card (Assign S)) a).isSome = true
    ∧ ∀ (fuel : ℕ) (a' b l : Assign S), stage1Loop S fuel a' = some (b, l) →
        cost1 S b ≤ cost1 S a' ∧ ¬ cost1 S l < cost1 S b :=
  ⟨stage1Loop_isSome S a, fun fuel a' b l h =>
    ⟨(stage1Loop_some S fuel a' b l h).1, (stage1Loop_some S fuel a' b l h).2.2⟩⟩

/-- C8 (witness): on `Sys1` from seed `asg0` the loop returns within 3
iterations with best state `asg1`, and the accepted cost did not increase. -/
theorem stage1_monotone_terminating_witness :
    cost1 Sys1 asg1 ≤ cost1 Sys1 asg0 ∧ ¬ cost1 Sys1 asg0 < cost1 Sys1 asg1 :=
  (stage1_monotone_terminating Sys1 asg0).2 3 asg0 asg1 asg0 (by decide)

/-- C1 (counterexample): on `Sys1` the loop accepts the re-partition of cost
5 and then stops on a re-partition of cost 10; it returns the configuration
of the cost-5 state paired with the cost-10 partition, so the returned
partition does not achieve the returned best cost. -/
theorem stage1_returns_stale_partition :
    (stage1Loop Sys1 3 asg0).map (fun p => (cost1 Sys1 p.1, cost1 Sys1 p.2))
      = some (5, 10)
    ∧ (5 : ℚ) ≠ 10 := by
  constructor
  · decide
  · norm_num

/-- C1 (amended): the loop stops the first time a re-tuned best-fit
partition's cost fails to beat the best cost so far, and returns the
best-cost configuration — but paired with the *last* best-fit partition
computed (the one that triggered termination), whose cost is not below the
best cost and need not equal it. -/
theorem stage1_result_shape (S : Sys Cfg) (fuel : ℕ) (a b l : Assign S)
    (h : stage1Loop S fuel a = some (b, l)) :
    cost1 S b ≤ cost1 S a ∧ l = bestFitAssign S b ∧ ¬ cost1 S l < cost1 S b :=
  stage1Loop_some S fuel a b l h

/-- C1 (witness): the amended statement at the concrete `Sys1` run. -/
theorem stage1_result_shape_witness :
    cost1 Sys1 asg1 ≤ cost1 Sys1 asg0 ∧ asg0 = bestFitAssign Sys1 asg1
      ∧ ¬ cost1 Sys1 asg0 < cost1 Sys1 asg1 :=
  stage1_result_shape Sys1 3 asg0 asg1 asg0 (by decide)

/-! ## Stage 2: balance-aware tuning refinement -/

lemma stage2Step_cost (S : Sys Cfg) (cfgs : ℕ → Cfg) (parts : ℕ → List ℕ)
    (nc : ℕ → Cfg) (np : ℕ → List ℕ) (x : ℚ)
    (h : stage2Step S cfgs parts = .ok (nc, np, x)) : x = totalCost S nc np := by
  simp only [stage2Step] at h
  split at h
  · exact absurd h (by simp)
  · split at h
    · exact absurd h (by simp)
    · split at h
      · exact absurd h (by simp)
      · split at h
        · obtain ⟨rfl, rfl, rfl⟩ := Prod.mk.injEq .. ▸ (Except.ok.injEq .. ▸ h)
          rfl
        · obtain ⟨rfl, rfl, rfl⟩ := Prod.mk.injEq .. ▸ (Except.ok.injEq .. ▸ h)
          rfl

lemma stage2Loop_cost (S : Sys Cfg) :
    ∀ (fuel : ℕ) (cfgs : ℕ → Cfg) (parts : ℕ → List ℕ) (curCost : ℚ)
      (c' : ℕ → Cfg) (p' : ℕ → List ℕ),
      curCost = totalCost S cfgs parts →
      stage2Loop S fuel cfgs parts curCost = .ok (c', p') →
      totalCost S c' p' ≤ curCost := by
  intro fuel
  induction fuel with
  | zero => intro cfgs parts curCost c' p' _ h; simp [stage2Loop] at h
  | succ fuel ih =>
      intro cfgs parts curCost c' p' hinv h
      simp only [stage2Loop] at h
      split at h
      · exact absurd h (by simp)
      · rename_i nc np x heq
        split at h
        · rename_i hlt
          have hx := stage2Step_cost S cfgs parts nc np x heq
          have := ih nc np x c' p' hx h
          linarith
        · obtain ⟨rfl, rfl⟩ := Prod.mk.injEq .. ▸ (Except.ok.injEq .. ▸ h)
          rw [hinv]

/-- C2: whenever `balance_tuning_refine` returns, the total system cost of
the returned configurations and partitions is no more than the total cost of
the state the loop started with (the stage-1 configurations on their best-fit
partition): the loop accepts a move/duplicate only at a strictly lower cost
and otherwise returns the last accepted state unchanged. -/
theorem balance_refine_cost_bounded (S : Sys Cfg) (fuel : ℕ)
    (partitions : ℕ → List ℕ) (configs : ℕ → Cfg)
    (c' : ℕ → Cfg) (p' : ℕ → List ℕ)
    (h : balanceTuningRefine S fuel partitions configs = .ok (c', p')) :
    totalCost S c' p' ≤ totalCost S configs (bestFitParts S configs) :=
  stage2Loop_cost S fuel configs (bestFitParts S configs)
    (totalCost S configs (bestFitParts S configs)) c' p' rfl h

/-- C2 (witness): on `SysA` the loop returns its starting state after one
rejected iteration, and the bound holds there. -/
theorem balance_refine_cost_bounded_witness :
    totalCost SysA (fun _ => ([] : List ℕ)) (bestFitParts SysA (fun _ => []))
      ≤ totalCost SysA (fun _ => []) (bestFitParts SysA (fun _ => [])) :=
  balance_refine_cost_bounded SysA 5 (fun _ => []) (fun _ => [])
    (fun _ => []) (bestFitParts SysA (fun _ => [])) (by rfl)

/-- C6: on `Sys6`, the second loop iteration finds the worst replica's
current query list disjoint from its best-fit list; the empty candidate
intersection sends `np.argmax` an empty sequence and the run raises
(`ValueError`, modelled as `S2Err.emptyCandidates`) instead of returning the
current configurations and partitions. -/
theorem balance_refine_crashes_on_empty_intersection :
    balanceTuningRefine Sys6 5 (fun _ => []) cfg6 = .error .emptyCandidates := by
  rfl

/-- C10: `balance_tuning_refine` never reads its `partitions` argument — the
loop state is reseeded from the best-fit partition under the applied
configurations — so any two partition arguments give identical results. -/
theorem balance_refine_ignores_partitions (S : Sys Cfg) (fuel : ℕ)
    (p1 p2 : ℕ → List ℕ) (configs : ℕ → Cfg) :
    balanceTuningRefine S fuel p1 configs
      = balanceTuningRefine S fuel p2 configs := rfl

/-! ## Stage 3: the per-query routing step -/

lemma routeOne_qualifies (loads costs : List ℚ) (baseline t : ℚ) :
    routeOne loads costs baseline t = (argsortQ costs).headD 0
    ∨ (costs.getD (routeOne loads costs baseline t) 0 < baseline
       ∧ loadRatioLt loads ((argsortQ costs).headD 0)
           (routeOne loads costs baseline t) t = true) := by
  unfold routeOne
  have key : ∀ (l : List ℕ) (r : ℕ),
      (r = (argsortQ costs).headD 0
        ∨ (costs.getD r 0 < baseline
           ∧ loadRatioLt loads ((argsortQ costs).headD 0) r t = true)) →
      (l.foldl
        (fun route i =>
          if costs.getD i 0 < baseline then
            if loadRatioLt loads ((argsortQ costs).headD 0) i t then i else route
          else route) r = (argsortQ costs).headD 0
        ∨ (costs.getD (l.foldl
            (fun route i =>
              if costs.getD i 0 < baseline then
                if loadRatioLt loads ((argsortQ costs).headD 0) i t then i else route
              else route) r) 0 < baseline
           ∧ loadRatioLt loads ((argsortQ costs).headD 0)
               (l.foldl
                 (fun route i =>
                   if costs.getD i 0 < baseline then
                     if loadRatioLt loads ((argsortQ costs).headD 0) i t then i
                     else route
                   else route) r) t = true)) := by
    intro l
    induction l with
    | nil => intro r hr; exact hr
    | cons i tl ih =>
        intro r hr
        simp only [List.foldl_cons]
        by_cases hc : costs.getD i 0 < baseline
        · by_cases hl : loadRatioLt loads ((argsortQ costs).headD 0) i t = true
          · rw [if_pos hc, if_pos hl]
            exact ih i (Or.inr ⟨hc, hl⟩)
          · rw [if_pos hc, if_neg hl]
            exact ih r hr
        · rw [if_neg hc]
          exact ih r hr
  exact key _ _ (Or.inl rfl)

lemma loadRatioLt_lt (loads : List ℚ) (o0 i : ℕ)
    (hpos : ∀ x ∈ loads, 0 < x)
    (h : loadRatioLt loads o0 i 1 = true) :
    loads.getD i 0 < loads.getD o0 0 := by
  unfold loadRatioLt at h
  split at h
  · exact absurd h (by simp)
  · rename_i hne
    have hd : 0 < loads.getD o0 0 := by
      by_cases ho : o0 < loads.length
      · have hg : loads.getD o0 0 = loads[o0] := by
          rw [List.getD_eq_getElem?_getD, List.getElem?_eq_getElem ho]
          rfl
        rw [hg]
        exact hpos _ (List.getElem_mem ho)
      · exact absurd (List.getD_eq_default loads 0 (by omega)) hne
    exact (div_lt_one hd).mp (of_decide_eq_true h)

/-- C9 (counterexample): with threshold 1, costs `[5, 6]`, baseline 10 and
equal nonzero loads `[2, 2]`, replica 1 beats the baseline but the skew check
`loads[1] / loads[0] < 1` evaluates `1 < 1` and fails, so the query is not
rerouted: the skew check does not always pass. -/
theorem routeOne_skew_fails_at_equal_loads :
    routeOne [2, 2] [5, 6] 10 1 = 0 ∧ (6 : ℚ) < 10 ∧ (2 : ℚ) ≠ 0 := by
  decide

/-- C9 (amended): with threshold 1 and positive accumulated loads, the
router reroutes away from the cheapest replica only to a replica whose cost
beats the baseline *and* whose accumulated load is strictly below the
cheapest replica's load — the skew check passes exactly then, not always. -/
theorem routeOne_threshold_one (loads costs : List ℚ) (baseline : ℚ)
    (hpos : ∀ x ∈ loads, 0 < x) :
    routeOne loads costs baseline 1 = (argsortQ costs).headD 0
    ∨ (costs.getD (routeOne loads costs baseline 1) 0 < baseline
       ∧ loads.getD (routeOne loads costs baseline 1) 0
           < loads.getD ((argsortQ costs).headD 0) 0) := by
  rcases routeOne_qualifies loads costs baseline 1 with h | ⟨h1, h2⟩
  · exact Or.inl h
  · exact Or.inr ⟨h1, loadRatioLt_lt loads _ _ hpos h2⟩

/-- C9 (witness): the amended statement at loads `[2, 1]`, costs `[5, 6]`,
baseline 10. -/
theorem routeOne_threshold_one_witness :
    routeOne [2, 1] [5, 6] 10 1 = (argsortQ [5, 6]).headD 0
    ∨ (([5, 6] : List ℚ).getD (routeOne [2, 1] [5, 6] 10 1) 0 < 10
       ∧ ([2, 1] : List ℚ).getD (routeOne [2, 1] [5, 6] 10 1) 0
           < ([2, 1] : List ℚ).getD ((argsortQ [5, 6]).headD 0) 0) :=
  routeOne_threshold_one [2, 1] [5, 6] 10 (by decide)
